import Mathlib

/-!
Verification development for the udemy-py course downloader (`src/main.py`).

The Python source is shallowly embedded: each definition below mirrors a
function or a code region of `main.py` (line numbers in the doc comments),
translating Python dictionaries into Lean structures, `None` into `Option`,
exceptions / `sys.exit` into `Except`, and the mutable fold of
`organize_curriculum` into an explicit `List.foldl`.
-/

/-- A raw curriculum item as returned by the paginated listing endpoint.
Mirrors the Python dict fields read by `main.py`: `_class` (discriminator
string: `"chapter"`, `"lecture"`, `"practice"`, possibly others), `id`,
`title`, `description`, `is_published`, and (for lectures) `is_free`
(read at line 177). -/
structure RawItem where
  _class : String
  id : Nat
  title : String
  description : String
  is_published : Bool
  is_free : Bool
deriving DecidableEq, Repr

/-- A chapter of the organized curriculum: the dict built at
`main.py` lines 117-123, with `children` accumulating the following
lecture/practice items. -/
structure Chapter where
  id : Nat
  title : String
  description : String
  is_published : Bool
  children : List RawItem
deriving DecidableEq, Repr

/-- The chapter dict opened at `main.py` lines 117-123 (empty `children`). -/
def mkChapter (it : RawItem) : Chapter :=
  ⟨it.id, it.title, it.description, it.is_published, []⟩

/-- `item['_class'] == 'chapter'` (line 116). -/
def isChapterItem (it : RawItem) : Bool := it._class = "chapter"

/-- `item['_class'] == 'lecture'` (line 128). -/
def isLectureItem (it : RawItem) : Bool := it._class = "lecture"

/-- `item['_class'] in ['lecture', 'practice']` (line 125). -/
def isAttachable (it : RawItem) : Bool :=
  it._class = "lecture" || it._class = "practice"

/-- `current_chapter['children'].append(item)` (line 127): in the Python
code `current_chapter` aliases the last element of `curriculum`, so the
append mutates the last chapter of the accumulated list. -/
def appendToLast : List Chapter → RawItem → List Chapter
  | [], _ => []
  | [c], it => [{ c with children := c.children ++ [it] }]
  | c :: c2 :: rest, it => c :: appendToLast (c2 :: rest) it

/-- One iteration of the `for item in results` loop of
`organize_curriculum` (lines 115-131).  State is
`(curriculum, total_lectures)`; `current_chapter is None` holds exactly
when no chapter has been appended yet, i.e. when the list is empty, and
otherwise `current_chapter` is the last chapter of the list. -/
def organizeStep (s : List Chapter × Nat) (it : RawItem) : List Chapter × Nat :=
  if isChapterItem it then
    (s.1 ++ [mkChapter it], s.2)
  else if isAttachable it then
    match s.1 with
    | [] => s  -- "Found lecture or practice without a parent chapter." (line 131)
    | _ :: _ =>
      (appendToLast s.1 it, if isLectureItem it then s.2 + 1 else s.2)
  else
    s

/-- `Udemy.organize_curriculum` (`main.py` lines 109-138): folds the raw
item list into the curriculum and the reported lecture count
`total_lectures`. -/
def organize_curriculum (results : List RawItem) : List Chapter × Nat :=
  results.foldl organizeStep ([], 0)

/-- Reference (spec-style) organizer: each chapter item opens a chapter
whose children are exactly the attachable items up to the next chapter
item, and any items before the first chapter item are dropped.  Used to
state that `organize_curriculum` attaches every lecture/practice item to
the most recently opened chapter. -/
def organizeRef : List RawItem → List Chapter
  | [] => []
  | it :: rest =>
    if isChapterItem it then
      { mkChapter it with
        children := (rest.takeWhile (fun i => !isChapterItem i)).filter isAttachable }
        :: organizeRef (rest.dropWhile (fun i => !isChapterItem i))
    else
      organizeRef rest
termination_by l => l.length
decreasing_by
  · simp only [List.length_cons]
    exact Nat.lt_succ_of_le (List.IsSuffix.length_le (List.dropWhile_suffix _))
  · simp

/-! ## Pagination (`Udemy.fetch_course_curriculum`, lines 75-107) -/

/-- One page of the paginated curriculum listing: the JSON shape
`{count, next, results}` (lines 97-105). -/
structure Page where
  count : Nat
  next : Option String
  results : List RawItem
deriving DecidableEq, Repr

/-- The `while url:` loop of `fetch_course_curriculum` (lines 90-105),
with the server modelled as the sequence of pages it serves along the
cursor chain.  Per iteration: `total_count` is (re)read from the current
page while it is still `0` (lines 97-99), the page's `results` are
appended to `all_results` (lines 101-102), and the loop continues exactly
when the page carries a `next` URL (line 105). -/
def fetch_pages : List Page → List RawItem → Nat → List RawItem × Nat
  | [], acc, total => (acc, total)
  | p :: rest, acc, total =>
    let total1 := if total = 0 then p.count else total
    let acc1 := acc ++ p.results
    match p.next with
    | none => (acc1, total1)
    | some _ => fetch_pages rest acc1 total1

/-- `fetch_course_curriculum` up to the final `organize_curriculum` call:
returns the accumulated raw items and the progress total. -/
def fetch_course_curriculum (pages : List Page) : List RawItem × Nat :=
  fetch_pages pages [] 0

/-- A well-formed cursor chain: nonempty, every page except the last
carries a `next` URL, and the last page does not. -/
def isChain : List Page → Bool
  | [] => false
  | [p] => p.next.isNone
  | p :: p2 :: rest => p.next.isSome && isChain (p2 :: rest)

/-- First nonzero element of a list of counts (`0` if none): the value
`total_count` holds after the loop, since it is re-read while `0`. -/
def firstNonzero : List Nat → Nat
  | [] => 0
  | n :: rest => if n = 0 then firstNonzero rest else n

/-! ## Media source selection (`process_lecture`, lines 177-195) -/

/-- One entry of `lect_info['asset']['media_sources']`: `{type, src}`. -/
structure MediaSource where
  type : String
  src : String
deriving DecidableEq, Repr

/-- `next((item['src'] for item in media_sources if item['type'] == t), None)`
(lines 178, 184, 185): the `src` of the first source whose `type` is `t`. -/
def find_src (t : String) (ms : List MediaSource) : Option String :=
  (ms.find? (fun m => m.type == t)).map (fun m => m.src)

/-- What the selector tells the external collaborators to do. -/
inductive MediaAction where
  | noDownload
  | downloadHls (url : String)
  | downloadDash (url : String) (key : Option String)
deriving DecidableEq, Repr

/-- The log events emitted by lines 180, 189, 191, 194. -/
inductive MediaLog where
  | missingSource
  | unsupportedFormat
  | drmRisk
deriving DecidableEq, Repr

/-- The media-source selection policy of `process_lecture`
(lines 177-195): free lectures look only for `application/x-mpegURL`
(missing-source error otherwise, line 180); paid lectures look for
`application/dash+xml` first (with a DRM-risk warning when the key is
absent, line 194), fall to a `video/mp4` unsupported-format report
(line 191), and report a missing source when neither exists (line 189). -/
def select_media (is_free : Bool) (sources : List MediaSource) (key : Option String) :
    List MediaLog × MediaAction :=
  if is_free then
    match find_src "application/x-mpegURL" sources with
    | none => ([MediaLog.missingSource], MediaAction.noDownload)
    | some u => ([], MediaAction.downloadHls u)
  else
    match find_src "application/dash+xml" sources, find_src "video/mp4" sources with
    | none, none => ([MediaLog.missingSource], MediaAction.noDownload)
    | none, some _ => ([MediaLog.unsupportedFormat], MediaAction.noDownload)
    | some u, _ =>
      ((if key.isNone then [MediaLog.drmRisk] else []), MediaAction.downloadDash u key)

/-! ## Download orchestration (`download_course`, lines 157-215) -/

/-- `lect_info['asset']` as read by `process_lecture`. -/
structure Asset where
  captions : List String
  media_sources : List MediaSource
deriving DecidableEq, Repr

/-- The lecture detail fetched by `fetch_lecture_info` (lines 140-145). -/
structure LectureInfo where
  id : Nat
  asset : Asset
deriving DecidableEq, Repr

/-- How a lecture task ends when it does not return normally:
`systemExit` models `sys.exit(1)` (raised as `SystemExit` inside the
worker, captured by the future and re-raised by `future.result()` in the
main thread, where only `KeyboardInterrupt` is caught); `exception`
models any exception raised by an external collaborator, which
propagates the same way. -/
inductive RunError where
  | systemExit
  | exception
deriving DecidableEq, Repr

/-- The environment a download run executes against: `fetch id = none`
models `fetch_lecture_info` failing (it logs critically and calls
`sys.exit(1)`, line 145); `toolFails id = true` models the external
stream collaborator raising for that lecture. -/
structure DownloadEnv where
  fetch : Nat → Option LectureInfo
  toolFails : Nat → Bool

/-- The inner `process_lecture` task (lines 160-198) restricted to its
control flow: a `practice` (or other non-lecture) child returns normally
with nothing to do; a `lecture` child first fetches its detail —
a failing fetch exits via `sys.exit(1)` (line 145) — then runs the media
selection; when a download action was selected and the external tool
raises, the exception escapes the task (no try/except surrounds the task
body).  On normal return the emitted media log events are reported. -/
def process_lecture_model (env : DownloadEnv) (key : Option String) (lecture : RawItem) :
    Except RunError (List MediaLog) :=
  if isLectureItem lecture then
    match env.fetch lecture.id with
    | none => Except.error RunError.systemExit
    | some info =>
      let r := select_media lecture.is_free info.asset.media_sources key
      if r.2 ≠ MediaAction.noDownload && env.toolFails lecture.id then
        Except.error RunError.exception
      else
        Except.ok r.1
  else
    Except.ok []

/-- One chapter of the `for chapter in curriculum` loop (lines 201-213):
every child is submitted to the executor (so every task runs and
produces an outcome), then `future.result()` is collected in submission
order, re-raising the first captured exception in the main thread. -/
def run_chapter_model (env : DownloadEnv) (key : Option String) (chapter : Chapter) :
    Except RunError (List (List MediaLog)) :=
  let results := chapter.children.map (process_lecture_model env key)
  results.foldl
    (fun acc r => do
      let xs ← acc
      let x ← r
      pure (xs ++ [x]))
    (Except.ok [])

/-- `download_course` over the chapter list (lines 200-215): chapters are
processed sequentially; the first exception re-raised by a
`future.result()` call escapes `download_course` (and `main`, which
catches only `KeyboardInterrupt`), terminating the run.  Returns the
number of chapters fully completed and the terminating error, if any. -/
def download_course_model (env : DownloadEnv) (key : Option String) :
    List Chapter → Nat × Option RunError
  | [] => (0, none)
  | ch :: rest =>
    match run_chapter_model env key ch with
    | Except.error e => (0, some e)
    | Except.ok _ =>
      let r := download_course_model env key rest
      (r.1 + 1, r.2)

/-- `ThreadPoolExecutor(max_workers=1)` (line 200): the worker-pool bound
`download_course` actually constructs. -/
def executor_max_workers : Nat := 1

/-- The configured worker-pool size: `--threads` with `default=4`
(line 253). -/
def threads_arg_value (cli : Option Nat) : Nat := cli.getD 4

/-- The pool bound used by `download_course` as a function of the
configured thread count: the code never reads `args.threads`, so the
bound is the constant `executor_max_workers`. -/
def pool_bound (_threads : Nat) : Nat := executor_max_workers

/-! ## Filesystem write targets of one lecture task (lines 160-195).
Paths are modelled as lists of path components (`os.path.flatten` appends a
component). -/

/-- `temp_folder_path = os.path.flatten(folder_path, str(lecture['id']))`
(line 161): the per-item subdirectory; the selected media stream is
downloaded into it (lines 182, 195). -/
def media_write_dir (folder_path : List String) (lecture : RawItem) : List String :=
  folder_path ++ [Nat.repr lecture.id]

/-- `download_captions(..., folder_path, ...)` (line 171): caption files
are written into the chapter directory itself. -/
def caption_write_dir (folder_path : List String) (_lecture : RawItem) : List String :=
  folder_path

/-- `process_supplementary_assets(self, ..., folder_path, ...)`
(line 175): supplementary assets are written into the chapter directory
itself. -/
def asset_write_dir (folder_path : List String) (_lecture : RawItem) : List String :=
  folder_path

/-! ## Curriculum cache (`main.py` lines 303-344) -/

/-- A JSON value, as far as the curriculum cache needs one. -/
inductive Json where
  | null
  | jbool (b : Bool)
  | jnum (n : Nat)
  | jstr (s : String)
  | jarr (xs : List Json)
  | jobj (fields : List (String × Json))

/-- Modelled from the spec: the serialization itself is Python's `json`
module (`json.dump` at lines 337/343, `json.load` at lines 306/314),
which is not part of this repository.  Per spec §4.4 and §6 the cache
file is a JSON array of Chapter objects whose array order equals the
Curriculum order; a raw item is serialized as the object of its fields. -/
def itemToJson (it : RawItem) : Json :=
  Json.jobj
    [("_class", Json.jstr it._class),
     ("id", Json.jnum it.id),
     ("title", Json.jstr it.title),
     ("description", Json.jstr it.description),
     ("is_published", Json.jbool it.is_published),
     ("is_free", Json.jbool it.is_free)]

/-- Modelled from the spec: inverse of `itemToJson` (Python's
`json.load` reproduces the dumped object). -/
def itemOfJson : Json → Option RawItem
  | Json.jobj
      [("_class", Json.jstr c),
       ("id", Json.jnum i),
       ("title", Json.jstr t),
       ("description", Json.jstr d),
       ("is_published", Json.jbool p),
       ("is_free", Json.jbool f)] => some ⟨c, i, t, d, p, f⟩
  | _ => none

/-- Decode a JSON array of raw items, failing if any element fails. -/
def itemsOfJson : List Json → Option (List RawItem)
  | [] => some []
  | j :: rest =>
    match itemOfJson j, itemsOfJson rest with
    | some i, some is => some (i :: is)
    | _, _ => none

/-- Modelled from the spec: a chapter is serialized as the object of its
fields, `children` being the array of its items in order. -/
def chapterToJson (c : Chapter) : Json :=
  Json.jobj
    [("id", Json.jnum c.id),
     ("title", Json.jstr c.title),
     ("description", Json.jstr c.description),
     ("is_published", Json.jbool c.is_published),
     ("children", Json.jarr (c.children.map itemToJson))]

/-- Modelled from the spec: inverse of `chapterToJson`. -/
def chapterOfJson : Json → Option Chapter
  | Json.jobj
      [("id", Json.jnum i),
       ("title", Json.jstr t),
       ("description", Json.jstr d),
       ("is_published", Json.jbool p),
       ("children", Json.jarr js)] =>
    match itemsOfJson js with
    | some is => some ⟨i, t, d, p, is⟩
    | none => none
  | _ => none

/-- Decode a JSON array of chapters, failing if any element fails. -/
def chaptersOfJson : List Json → Option (List Chapter)
  | [] => some []
  | j :: rest =>
    match chapterOfJson j, chaptersOfJson rest with
    | some c, some cs => some (c :: cs)
    | _, _ => none

/-- `json.dump(course_curriculum, f, indent=4)` (lines 337, 343),
modelled from the spec: `save` writes the curriculum as a JSON array of
Chapter objects in curriculum order. -/
def save_curriculum (cs : List Chapter) : Json :=
  Json.jarr (cs.map chapterToJson)

/-- `json.load(open(path))` (lines 306, 314), modelled from the spec:
`load` parses the cache file back into a curriculum, failing on a
malformed structure. -/
def load_curriculum : Json → Option (List Chapter)
  | Json.jarr js => chaptersOfJson js
  | _ => none

/-! ## Helper lemmas -/

lemma find_src_eq_none_iff (t : String) (ms : List MediaSource) :
    find_src t ms = none ↔ ∀ m ∈ ms, m.type ≠ t := by
  simp [find_src, List.find?_eq_none]

lemma find_src_exists_of_mem (t : String) (ms : List MediaSource)
    (h : ∃ m ∈ ms, m.type = t) : ∃ u, find_src t ms = some u := by
  rcases h with ⟨m, hm, ht⟩
  rcases hs : ms.find? (fun m => m.type == t) with _ | m0
  · rw [List.find?_eq_none] at hs
    exact absurd (by simpa using ht) (hs m hm)
  · exact ⟨m0.src, by simp [find_src, hs]⟩

/-! ## Theorems -/

/-- C1: the media source selection follows the reference policy of
`process_lecture` (lines 177-195): a free lecture selects the first
`application/x-mpegURL` source and reports a missing source when none
exists (no fallback to any other type); a paid lecture selects the
first `application/dash+xml` source when present, otherwise a
`video/mp4` source yields an unsupported-format report with no download,
and the absence of both yields a missing-source error. -/
theorem select_media_policy (sources : List MediaSource) (key : Option String) :
    ((∀ m ∈ sources, m.type ≠ "application/x-mpegURL") →
      select_media true sources key = ([MediaLog.missingSource], MediaAction.noDownload))
  ∧ (∀ u, find_src "application/x-mpegURL" sources = some u →
      select_media true sources key = ([], MediaAction.downloadHls u))
  ∧ (∀ u, find_src "application/dash+xml" sources = some u →
      (select_media false sources key).2 = MediaAction.downloadDash u key)
  ∧ ((∀ m ∈ sources, m.type ≠ "application/dash+xml") →
      (∃ m ∈ sources, m.type = "video/mp4") →
      select_media false sources key = ([MediaLog.unsupportedFormat], MediaAction.noDownload))
  ∧ ((∀ m ∈ sources, m.type ≠ "application/dash+xml" ∧ m.type ≠ "video/mp4") →
      select_media false sources key = ([MediaLog.missingSource], MediaAction.noDownload)) := by
  refine ⟨?_, ?_, ?_, ?_, ?_⟩
  · intro h
    rw [← find_src_eq_none_iff] at h
    simp [select_media, h]
  · intro u hu
    simp [select_media, hu]
  · intro u hu
    rcases hm : find_src "video/mp4" sources with _ | v <;>
      simp [select_media, hu, hm]
  · intro hd hm
    rw [← find_src_eq_none_iff] at hd
    rcases find_src_exists_of_mem _ _ hm with ⟨u, hu⟩
    simp [select_media, hd, hu]
  · intro h
    have hd : find_src "application/dash+xml" sources = none :=
      (find_src_eq_none_iff _ _).2 fun m hm => (h m hm).1
    have hm : find_src "video/mp4" sources = none :=
      (find_src_eq_none_iff _ _).2 fun m hm => (h m hm).2
    simp [select_media, hd, hm]

/-- Witness for C1: a free lecture whose only source is DASH yields a
missing-source error and no download (no cross-tier fallback). -/
theorem select_media_policy_witness :
    select_media true [⟨"application/dash+xml", "d"⟩] none
      = ([MediaLog.missingSource], MediaAction.noDownload) :=
  (select_media_policy [⟨"application/dash+xml", "d"⟩] none).1 (by decide)

/-- C8: for a paid lecture whose selected source is DASH, an absent
decryption key emits a DRM-risk warning and the download is still
attempted with a null key (lines 192-195); the key's absence never
prevents the download. -/
theorem drm_key_absent_never_fatal (sources : List MediaSource) (u : String)
    (h : find_src "application/dash+xml" sources = some u) :
    select_media false sources none = ([MediaLog.drmRisk], MediaAction.downloadDash u none)
  ∧ ∀ key, (select_media false sources key).2 = MediaAction.downloadDash u key := by
  constructor
  · rcases hm : find_src "video/mp4" sources with _ | v <;>
      simp [select_media, h, hm]
  · intro key
    rcases hm : find_src "video/mp4" sources with _ | v <;>
      simp [select_media, h, hm]

/-- Witness for C8: a paid lecture with a DASH source and no key gets
the warning and the download with a null key. -/
theorem drm_key_absent_never_fatal_witness :
    select_media false [⟨"application/dash+xml", "d"⟩] none
      = ([MediaLog.drmRisk], MediaAction.downloadDash "d" none) :=
  (drm_key_absent_never_fatal [⟨"application/dash+xml", "d"⟩] "d" (by decide)).1

/-- C10: when several media sources share the requested type, the
selector (`next(...)` over the list, lines 178/184/185) deterministically
picks the first source of that type in list order. -/
theorem find_src_first_match (t : String) (sources : List MediaSource) (i : Nat)
    (hi : i < sources.length) (hmatch : (sources.get ⟨i, hi⟩).type = t)
    (hfirst : ∀ j (hj : j < sources.length), j < i → (sources.get ⟨j, hj⟩).type ≠ t) :
    find_src t sources = some (sources.get ⟨i, hi⟩).src := by
  induction sources generalizing i with
  | nil => exact absurd hi (Nat.not_lt_zero i)
  | cons m rest ih =>
    cases i with
    | zero =>
      simp only [List.get] at hmatch ⊢
      simp [find_src, List.find?_cons, hmatch]
    | succ i =>
      have hm : m.type ≠ t := by
        have := hfirst 0 (Nat.succ_pos _) (Nat.succ_pos _)
        simpa [List.get] using this
      have hrec := ih i (Nat.lt_of_succ_lt_succ hi)
        (by simpa [List.get] using hmatch)
        (fun j hj hji => by
          have := hfirst (j + 1) (Nat.succ_lt_succ hj) (Nat.succ_lt_succ hji)
          simpa [List.get] using this)
      have hbeq : (m.type == t) = false := by simpa using hm
      simp only [List.get]
      rw [find_src, List.find?_cons, hbeq]
      exact hrec

/-- Witness for C10: with two DASH sources the first one (index 1, after
a non-matching MP4 source) is selected. -/
theorem find_src_first_match_witness :
    find_src "application/dash+xml"
      [⟨"video/mp4", "a"⟩, ⟨"application/dash+xml", "b"⟩, ⟨"application/dash+xml", "c"⟩]
      = some "b" := by
  have h := find_src_first_match "application/dash+xml"
    [⟨"video/mp4", "a"⟩, ⟨"application/dash+xml", "b"⟩, ⟨"application/dash+xml", "c"⟩]
    1 (by decide) (by decide)
    (by
      intro j hj hj1
      interval_cases j
      show ("video/mp4" : String) ≠ "application/dash+xml"
      decide)
  simpa using h

/-- C5 (the claim is right, the code is wrong): `download_course`
constructs `ThreadPoolExecutor(max_workers=1)` (line 200) regardless of
the configured `--threads` value (default 4, line 253), which is parsed
but never read, so the pool bound never equals a configured size other
than 1. -/
theorem pool_bound_ignores_threads :
    (∀ cli, pool_bound (threads_arg_value cli) = 1)
  ∧ threads_arg_value none = 4
  ∧ pool_bound (threads_arg_value none) ≠ threads_arg_value none :=
  ⟨fun _ => rfl, rfl, by decide⟩

/-- Counterexample for C9: two distinct sibling lectures' caption writes
(and supplementary-asset writes) target the same directory — the shared
chapter directory, not the per-item id-keyed subdirectory. -/
theorem caption_writes_share_directory :
    (RawItem.id ⟨"lecture", 1, "L1", "", true, false⟩
        ≠ RawItem.id ⟨"lecture", 2, "L2", "", true, false⟩)
  ∧ caption_write_dir ["downloads", "1. Chap"] ⟨"lecture", 1, "L1", "", true, false⟩
      = caption_write_dir ["downloads", "1. Chap"] ⟨"lecture", 2, "L2", "", true, false⟩
  ∧ asset_write_dir ["downloads", "1. Chap"] ⟨"lecture", 1, "L1", "", true, false⟩
      = asset_write_dir ["downloads", "1. Chap"] ⟨"lecture", 2, "L2", "", true, false⟩
  ∧ caption_write_dir ["downloads", "1. Chap"] ⟨"lecture", 1, "L1", "", true, false⟩
      ≠ media_write_dir ["downloads", "1. Chap"] ⟨"lecture", 1, "L1", "", true, false⟩ := by
  refine ⟨by decide, rfl, rfl, ?_⟩
  intro h
  exact absurd (congrArg List.length h) (by decide)

/-- C9 amended: only the selected media stream is written into the
per-item id-keyed subdirectory (distinct for lectures with distinct id
strings); caption files and supplementary-asset files are written into
the shared chapter directory. -/
theorem write_dir_isolation_amended (f : List String) (l1 l2 : RawItem)
    (h : Nat.repr l1.id ≠ Nat.repr l2.id) :
    media_write_dir f l1 ≠ media_write_dir f l2
  ∧ caption_write_dir f l1 = f
  ∧ asset_write_dir f l1 = f := by
  refine ⟨?_, rfl, rfl⟩
  intro he
  apply h
  have he2 : f ++ [Nat.repr l1.id] = f ++ [Nat.repr l2.id] := he
  have h3 := List.append_cancel_left he2
  injection h3

lemma itemsOfJson_map (its : List RawItem) :
    itemsOfJson (its.map itemToJson) = some its := by
  induction its with
  | nil => rfl
  | cons i rest ih =>
    show itemsOfJson (itemToJson i :: rest.map itemToJson) = some (i :: rest)
    unfold itemsOfJson
    rw [ih]
    rfl

lemma chapterOfJson_toJson (c : Chapter) :
    chapterOfJson (chapterToJson c) = some c := by
  cases c with
  | mk i t d p ch =>
    show chapterOfJson (Json.jobj
      [("id", Json.jnum i), ("title", Json.jstr t), ("description", Json.jstr d),
       ("is_published", Json.jbool p), ("children", Json.jarr (ch.map itemToJson))])
      = some ⟨i, t, d, p, ch⟩
    have heq : chapterOfJson (Json.jobj
        [("id", Json.jnum i), ("title", Json.jstr t), ("description", Json.jstr d),
         ("is_published", Json.jbool p), ("children", Json.jarr (ch.map itemToJson))])
        = match itemsOfJson (ch.map itemToJson) with
          | some is => some ⟨i, t, d, p, is⟩
          | none => none := rfl
    rw [heq, itemsOfJson_map]

lemma chaptersOfJson_map (cs : List Chapter) :
    chaptersOfJson (cs.map chapterToJson) = some cs := by
  induction cs with
  | nil => rfl
  | cons c rest ih =>
    show chaptersOfJson (chapterToJson c :: rest.map chapterToJson) = some (c :: rest)
    unfold chaptersOfJson
    rw [chapterOfJson_toJson, ih]

/-- C7: saving a Curriculum and loading it back yields the original
structure — in particular the chapter count, every chapter's child
count, and chapter and child order are preserved. -/
theorem save_load_roundtrip (cs : List Chapter) :
    load_curriculum (save_curriculum cs) = some cs
  ∧ (load_curriculum (save_curriculum cs)).map List.length = some cs.length
  ∧ (load_curriculum (save_curriculum cs)).map (List.map (fun c => c.children.length))
      = some (cs.map (fun c => c.children.length)) := by
  have h : load_curriculum (save_curriculum cs) = some cs := by
    show chaptersOfJson (cs.map chapterToJson) = some cs
    exact chaptersOfJson_map cs
  exact ⟨h, by rw [h]; rfl, by rw [h]; rfl⟩

lemma fetch_pages_spec (pages : List Page) (acc : List RawItem) (total : Nat)
    (hc : isChain pages = true) :
    fetch_pages pages acc total
      = (acc ++ (pages.map Page.results).flatten,
         if total = 0 then firstNonzero (pages.map Page.count) else total) := by
  induction pages generalizing acc total with
  | nil => exact absurd hc (by simp [isChain])
  | cons p rest ih =>
    cases rest with
    | nil =>
      have hn : p.next = none := by
        simpa [isChain, Option.isNone_iff_eq_none] using hc
      rcases Nat.eq_zero_or_pos p.count with h0 | h0
      · simp [fetch_pages, hn, firstNonzero, h0]
      · simp [fetch_pages, hn, firstNonzero, Nat.pos_iff_ne_zero.mp h0]
    | cons p2 rest2 =>
      have hc2 : isChain (p2 :: rest2) = true := by
        have := hc
        simp [isChain] at this
        exact this.2
      have hs : p.next.isSome := by
        have := hc
        simp [isChain] at this
        exact this.1
      rcases hnext : p.next with _ | u
      · rw [hnext] at hs; simp at hs
      · have heq : fetch_pages (p :: p2 :: rest2) acc total
            = fetch_pages (p2 :: rest2) (acc ++ p.results)
                (if total = 0 then p.count else total) := by
          unfold fetch_pages
          rw [hnext]
          rfl
        rw [heq, ih _ _ hc2]
        simp only [Prod.mk.injEq]
        constructor
        · simp
        · rcases Nat.eq_zero_or_pos total with ht | ht
          · rcases Nat.eq_zero_or_pos p.count with hp | hp
            · simp [ht, hp, firstNonzero]
            · simp [ht, Nat.pos_iff_ne_zero.mp hp, firstNonzero]
          · simp [Nat.pos_iff_ne_zero.mp ht]

/-- Counterexample for C6: on the chain `[{count 0, next u, results []},
{count 7, next null, results [one item]}]` the total used for progress is
`7`, read from the second page, not from the first page (whose reported
total is `0`): `total_count` is re-read while it is still `0`
(lines 97-98). -/
theorem fetch_total_not_from_first_page :
    isChain [⟨0, some "u", []⟩,
             ⟨7, none, [⟨"lecture", 1, "L", "", true, false⟩]⟩] = true
  ∧ (fetch_course_curriculum
      [⟨0, some "u", []⟩,
       ⟨7, none, [⟨"lecture", 1, "L", "", true, false⟩]⟩]).2 = 7
  ∧ (List.map Page.count
      [⟨0, some "u", []⟩,
       ⟨7, none, [⟨"lecture", 1, "L", "", true, false⟩]⟩]).head? = some 0 :=
  ⟨rfl, rfl, rfl⟩

/-- C6 amended: along a cursor chain the fetch appends each page's items
to the accumulator in page order and consumes exactly the chain (it
continues while `next` is present and stops when it is absent); the
total used for progress is the first nonzero reported count — hence read
once from the first page whenever the first page's count is nonzero —
and the final accumulated item count equals the first page's reported
total whenever every page's reported total equals the actual number of
items across the chain. -/
theorem fetch_course_curriculum_amended (pages : List Page)
    (hc : isChain pages = true) :
    (fetch_course_curriculum pages).1 = (pages.map Page.results).flatten
  ∧ (fetch_course_curriculum pages).2 = firstNonzero (pages.map Page.count)
  ∧ (∀ c, (pages.map Page.count).head? = some c → c ≠ 0 →
      (fetch_course_curriculum pages).2 = c)
  ∧ ((∀ p ∈ pages, p.count = ((pages.map Page.results).flatten).length) →
      ∀ c, (pages.map Page.count).head? = some c →
      (fetch_course_curriculum pages).1.length = c) := by
  have h := fetch_pages_spec pages [] 0 hc
  rw [fetch_course_curriculum, h]
  refine ⟨by simp, by simp, ?_, ?_⟩
  · intro c hhead hc0
    cases pages with
    | nil => simp at hhead
    | cons p rest =>
      simp at hhead
      simp [firstNonzero, hhead ▸ hc0, ← hhead]
  · intro hacc c hhead
    cases pages with
    | nil => simp at hhead
    | cons p rest =>
      simp at hhead
      have := hacc p (by simp)
      simp [← hhead, this]

/-- Witness for C6 amended: a two-page chain with accurate totals
accumulates both pages' items in order and reports the first page's
total. -/
theorem fetch_course_curriculum_amended_witness :
    (fetch_course_curriculum
      [⟨2, some "u", [⟨"chapter", 1, "A", "", true, false⟩]⟩,
       ⟨2, none, [⟨"lecture", 2, "L", "", true, false⟩]⟩]).1.length = 2 :=
  (fetch_course_curriculum_amended
    [⟨2, some "u", [⟨"chapter", 1, "A", "", true, false⟩]⟩,
     ⟨2, none, [⟨"lecture", 2, "L", "", true, false⟩]⟩]
    (by decide)).2.2.2 (by decide) 2 rfl

/-- Witness for C9 amended: lectures with ids 1 and 2 get distinct media
directories while their caption/asset writes stay in the chapter
directory. -/
theorem write_dir_isolation_amended_witness :
    media_write_dir ["c"] ⟨"lecture", 1, "L1", "", true, false⟩
        ≠ media_write_dir ["c"] ⟨"lecture", 2, "L2", "", true, false⟩
  ∧ caption_write_dir ["c"] ⟨"lecture", 1, "L1", "", true, false⟩ = ["c"]
  ∧ asset_write_dir ["c"] ⟨"lecture", 1, "L1", "", true, false⟩ = ["c"] :=
  write_dir_isolation_amended ["c"] ⟨"lecture", 1, "L1", "", true, false⟩
    ⟨"lecture", 2, "L2", "", true, false⟩ (by decide)



lemma process_lecture_model_ok (env : DownloadEnv) (key : Option String)
    (l : RawItem) (hf : isLectureItem l → (env.fetch l.id).isSome)
    (ht : env.toolFails l.id = false) :
    ∃ logs, process_lecture_model env key l = Except.ok logs := by
  unfold process_lecture_model
  cases hl : isLectureItem l with
  | false => exact ⟨[], by simp [hl]⟩
  | true =>
    rcases hfe : env.fetch l.id with _ | info
    · have hsome := hf hl
      rw [hfe] at hsome
      simp at hsome
    · exact ⟨(select_media l.is_free info.asset.media_sources key).1,
        by simp [hl, hfe, ht]⟩

lemma collect_futures_ok (rs : List (Except RunError (List MediaLog)))
    (h : ∀ r ∈ rs, ∃ x, r = Except.ok x) (init : List (List MediaLog)) :
    ∃ out,
      rs.foldl
        (fun acc r => do
          let xs ← acc
          let x ← r
          pure (xs ++ [x]))
        (Except.ok init) = Except.ok out
      ∧ out.length = init.length + rs.length := by
  induction rs generalizing init with
  | nil => exact ⟨init, rfl, rfl⟩
  | cons r rest ih =>
    rcases h r (by simp) with ⟨x, rfl⟩
    rcases ih (fun r hr => h r (by simp [hr])) (init ++ [x]) with ⟨out, hout, hlen⟩
    refine ⟨out, ?_, ?_⟩
    · rw [List.foldl_cons]
      show rest.foldl _ (Except.ok (init ++ [x])) = Except.ok out
      exact hout
    · simp at hlen
      simp [hlen]
      omega

lemma run_chapter_model_ok (env : DownloadEnv) (key : Option String)
    (ch : Chapter)
    (h : ∀ l ∈ ch.children, ∃ logs, process_lecture_model env key l = Except.ok logs) :
    ∃ logs, run_chapter_model env key ch = Except.ok logs
      ∧ logs.length = ch.children.length := by
  unfold run_chapter_model
  rcases collect_futures_ok (ch.children.map (process_lecture_model env key))
      (by
        intro r hr
        rcases List.mem_map.mp hr with ⟨l, hl, rfl⟩
        exact h l hl) [] with ⟨out, hout, hlen⟩
  exact ⟨out, hout, by simpa using hlen⟩

/-- Counterexample for C4: a curriculum of two chapters where the single
lecture of the first chapter fails its detail fetch.  `fetch_lecture_info`
calls `sys.exit(1)` (line 145); the `SystemExit` is captured by the
future and re-raised by `future.result()` (line 213) in the main thread,
where only `KeyboardInterrupt` is caught — the run terminates with zero
chapters completed and the second chapter is never processed, so a
failure scoped to a single lecture task does abort the run. -/
theorem lecture_fetch_failure_terminates_run :
    download_course_model ⟨fun _ => none, fun _ => false⟩ none
      [⟨10, "A", "", true, [⟨"lecture", 1, "L1", "", true, false⟩]⟩,
       ⟨20, "B", "", true, []⟩]
      = (0, some RunError.systemExit) := rfl

/-- C4 amended: failures that `process_lecture` merely logs — a missing
media source or an unsupported format — are contained: they do not
cancel sibling tasks, do not stop chapter progression and do not
terminate the run.  But failures that raise — a lecture-detail fetch
failure (which calls `sys.exit`) or an external-tool exception — escape
the task, are re-raised by `future.result()` and terminate the run.
Formally: whenever no lecture task raises (every detail fetch succeeds
and no external tool fails), the run completes every chapter and every
sibling task of every chapter, regardless of any missing-source or
unsupported-format conditions. -/
theorem logged_failures_do_not_abort_run (env : DownloadEnv)
    (key : Option String) (curriculum : List Chapter)
    (hfetch : ∀ ch ∈ curriculum, ∀ l ∈ ch.children,
      isLectureItem l → (env.fetch l.id).isSome)
    (htool : ∀ ch ∈ curriculum, ∀ l ∈ ch.children, env.toolFails l.id = false) :
    (download_course_model env key curriculum).2 = none
  ∧ (download_course_model env key curriculum).1 = curriculum.length
  ∧ ∀ ch ∈ curriculum, ∃ logs, run_chapter_model env key ch = Except.ok logs
      ∧ logs.length = ch.children.length := by
  induction curriculum with
  | nil => exact ⟨rfl, rfl, by simp⟩
  | cons ch rest ih =>
    rcases run_chapter_model_ok env key ch
        (fun l hl => process_lecture_model_ok env key l
          (hfetch ch (by simp) l hl) (htool ch (by simp) l hl)) with ⟨logs, hok, hlen⟩
    rcases ih
        (fun c hc l hl => hfetch c (by simp [hc]) l hl)
        (fun c hc l hl => htool c (by simp [hc]) l hl) with ⟨h1, h2, h3⟩
    refine ⟨?_, ?_, ?_⟩
    · show (match run_chapter_model env key ch with
        | Except.error e => (0, some e)
        | Except.ok _ =>
          let r := download_course_model env key rest
          (r.1 + 1, r.2)).2 = none
      rw [hok]
      exact h1
    · show (match run_chapter_model env key ch with
        | Except.error e => (0, some e)
        | Except.ok _ =>
          let r := download_course_model env key rest
          (r.1 + 1, r.2)).1 = rest.length + 1
      rw [hok]
      simpa using h2
    · intro c hc
      rcases List.mem_cons.mp hc with rfl | hc2
      · exact ⟨logs, hok, hlen⟩
      · exact h3 c hc2

/-- Witness for C4 amended: a run whose only lecture has no media source
at all (a forced missing-source condition) still completes both chapters
with every task finishing. -/
theorem logged_failures_do_not_abort_run_witness :
    (download_course_model
      ⟨fun _ => some ⟨1, ⟨[], []⟩⟩, fun _ => false⟩ none
      [⟨10, "A", "", true, [⟨"lecture", 1, "L1", "", true, false⟩]⟩,
       ⟨20, "B", "", true, []⟩]).2 = none :=
  (logged_failures_do_not_abort_run
    ⟨fun _ => some ⟨1, ⟨[], []⟩⟩, fun _ => false⟩ none
    [⟨10, "A", "", true, [⟨"lecture", 1, "L1", "", true, false⟩]⟩,
     ⟨20, "B", "", true, []⟩]
    (by intro ch hch l hl hlec; rfl)
    (by intro ch hch l hl; rfl)).1

/-! ## Organizer lemmas (C2, C3) -/

lemma chapter_not_attachable (it : RawItem) (h : isChapterItem it = true) :
    isAttachable it = false := by
  simp [isChapterItem] at h
  simp [isAttachable, h]

lemma chapter_not_lecture (it : RawItem) (h : isChapterItem it = true) :
    isLectureItem it = false := by
  simp [isChapterItem] at h
  simp [isLectureItem, h]

lemma lecture_attachable (it : RawItem) (h : isLectureItem it = true) :
    isAttachable it = true := by
  simp [isLectureItem] at h
  simp [isAttachable, h]

lemma not_lecture_of_not_attachable (it : RawItem) (h : isAttachable it = false) :
    isLectureItem it = false := by
  cases hl : isLectureItem it with
  | false => rfl
  | true => rw [lecture_attachable it hl] at h; simp at h

/-- The header fields of an organized chapter (everything except its
children): what chapter order is measured by. -/
def chapterHeader (c : Chapter) : Nat × String × String × Bool :=
  (c.id, c.title, c.description, c.is_published)

/-- The header fields of a raw item. -/
def itemHeader (it : RawItem) : Nat × String × String × Bool :=
  (it.id, it.title, it.description, it.is_published)

lemma appendToLast_map_header (cs : List Chapter) (it : RawItem) :
    (appendToLast cs it).map chapterHeader = cs.map chapterHeader := by
  induction cs with
  | nil => rfl
  | cons c cs2 ih =>
    cases cs2 with
    | nil => rfl
    | cons c2 cs3 =>
      show chapterHeader c :: (appendToLast (c2 :: cs3) it).map chapterHeader
        = chapterHeader c :: (c2 :: cs3).map chapterHeader
      rw [ih]

lemma appendToLast_length (cs : List Chapter) (it : RawItem) :
    (appendToLast cs it).length = cs.length := by
  induction cs with
  | nil => rfl
  | cons c cs2 ih =>
    cases cs2 with
    | nil => rfl
    | cons c2 cs3 =>
      show (appendToLast (c2 :: cs3) it).length + 1 = (c2 :: cs3).length + 1
      rw [ih]

lemma appendToLast_ne_nil (cs : List Chapter) (it : RawItem) (h : cs ≠ []) :
    appendToLast cs it ≠ [] := by
  intro he
  apply h
  have := appendToLast_length cs it
  rw [he] at this
  exact List.length_eq_zero.mp this.symm

lemma fold_map_header (items : List RawItem) :
    ∀ s : List Chapter × Nat,
    ((items.foldl organizeStep s).1).map chapterHeader
      = s.1.map chapterHeader ++ (items.filter isChapterItem).map itemHeader := by
  induction items with
  | nil => intro s; simp
  | cons it rest ih =>
    intro s
    rw [List.foldl_cons, ih]
    cases hc : isChapterItem it with
    | true =>
      simp [organizeStep, hc, List.filter_cons, chapterHeader, itemHeader, mkChapter]
    | false =>
      cases ha : isAttachable it with
      | true =>
        rcases s with ⟨cs, n⟩
        cases cs with
        | nil => simp [organizeStep, hc, ha, List.filter_cons]
        | cons c cs2 =>
          simp [organizeStep, hc, ha, List.filter_cons, appendToLast_map_header]
      | false =>
        rcases s with ⟨cs, n⟩
        simp [organizeStep, hc, ha, List.filter_cons]

/-- All children of all chapters, in curriculum order. -/
def childrenFlat (cs : List Chapter) : List RawItem :=
  (cs.map Chapter.children).flatten

lemma childrenFlat_cons (c : Chapter) (l : List Chapter) :
    childrenFlat (c :: l) = c.children ++ childrenFlat l := by
  simp [childrenFlat]

lemma childrenFlat_append (l1 l2 : List Chapter) :
    childrenFlat (l1 ++ l2) = childrenFlat l1 ++ childrenFlat l2 := by
  simp [childrenFlat]

lemma appendToLast_childrenFlat (cs : List Chapter) (it : RawItem) (h : cs ≠ []) :
    childrenFlat (appendToLast cs it) = childrenFlat cs ++ [it] := by
  induction cs with
  | nil => exact absurd rfl h
  | cons c cs2 ih =>
    cases cs2 with
    | nil => simp [appendToLast, childrenFlat]
    | cons c2 cs3 =>
      show childrenFlat (c :: appendToLast (c2 :: cs3) it) = _
      rw [childrenFlat_cons, ih (by simp), childrenFlat_cons]
      simp [childrenFlat_cons, List.append_assoc]

lemma organizeStep_chapter (cs : List Chapter) (n : Nat) (it : RawItem)
    (hc : isChapterItem it = true) :
    organizeStep (cs, n) it = (cs ++ [mkChapter it], n) := by
  simp [organizeStep, hc]

lemma organizeStep_attach (cs : List Chapter) (n : Nat) (it : RawItem)
    (hc : isChapterItem it = false) (ha : isAttachable it = true) (h : cs ≠ []) :
    organizeStep (cs, n) it
      = (appendToLast cs it, if isLectureItem it then n + 1 else n) := by
  cases cs with
  | nil => exact absurd rfl h
  | cons c cs2 => simp [organizeStep, hc, ha]

lemma organizeStep_other (cs : List Chapter) (n : Nat) (it : RawItem)
    (hc : isChapterItem it = false) (ha : isAttachable it = false) :
    organizeStep (cs, n) it = (cs, n) := by
  simp [organizeStep, hc, ha]

lemma fold_childrenFlat (items : List RawItem) :
    ∀ (cs : List Chapter) (n : Nat), cs ≠ [] →
    childrenFlat ((items.foldl organizeStep (cs, n)).1)
      = childrenFlat cs ++ items.filter isAttachable := by
  induction items with
  | nil => intro cs n _; simp
  | cons it rest ih =>
    intro cs n h
    rw [List.foldl_cons]
    cases hc : isChapterItem it with
    | true =>
      rw [organizeStep_chapter cs n it hc, ih (cs ++ [mkChapter it]) n (by simp)]
      rw [childrenFlat_append]
      simp [childrenFlat, mkChapter, List.filter_cons, chapter_not_attachable it hc]
    | false =>
      cases ha : isAttachable it with
      | true =>
        rw [organizeStep_attach cs n it hc ha h,
          ih (appendToLast cs it) _ (appendToLast_ne_nil cs it h),
          appendToLast_childrenFlat cs it h]
        simp [List.filter_cons, ha]
      | false =>
        rw [organizeStep_other cs n it hc ha, ih cs n h]
        simp [List.filter_cons, ha]

lemma fold_count (items : List RawItem) :
    ∀ (cs : List Chapter) (n : Nat), cs ≠ [] →
    (items.foldl organizeStep (cs, n)).2 = n + items.countP isLectureItem := by
  induction items with
  | nil => intro cs n _; simp
  | cons it rest ih =>
    intro cs n h
    rw [List.foldl_cons]
    cases hc : isChapterItem it with
    | true =>
      rw [organizeStep_chapter cs n it hc, ih (cs ++ [mkChapter it]) n (by simp)]
      simp [List.countP_cons, chapter_not_lecture it hc]
    | false =>
      cases ha : isAttachable it with
      | true =>
        rw [organizeStep_attach cs n it hc ha h,
          ih (appendToLast cs it) _ (appendToLast_ne_nil cs it h)]
        cases hl : isLectureItem it with
        | true => simp [List.countP_cons, hl]; omega
        | false => simp [List.countP_cons, hl]
      | false =>
        rw [organizeStep_other cs n it hc ha, ih cs n h]
        simp [List.countP_cons, not_lecture_of_not_attachable it ha]

lemma dropWhile_head_false {α : Type} (p : α → Bool) (l : List α) (a : α)
    (rest : List α) (h : l.dropWhile p = a :: rest) : p a = false := by
  induction l with
  | nil => simp [List.dropWhile] at h
  | cons x xs ih =>
    rw [List.dropWhile_cons] at h
    cases hx : p x with
    | true => rw [hx] at h; simp at h; exact ih h
    | false => rw [hx] at h; simp at h; rw [← h.1]; exact hx

lemma fold_empty_eq_dropWhile (items : List RawItem) (n : Nat) :
    items.foldl organizeStep ([], n)
      = (items.dropWhile (fun i => !isChapterItem i)).foldl organizeStep ([], n) := by
  induction items with
  | nil => rfl
  | cons it rest ih =>
    cases hc : isChapterItem it with
    | true => simp [List.dropWhile_cons, hc]
    | false =>
      have hstep : organizeStep ([], n) it = ([], n) := by
        cases ha : isAttachable it with
        | true => simp [organizeStep, hc, ha]
        | false => exact organizeStep_other [] n it hc ha
      rw [List.foldl_cons, hstep]
      simpa [List.dropWhile_cons, hc] using ih

/-- Counterexample for C2: on the input `[lecture L0]` (an orphan lecture
preceding any chapter) the reported lecture count is `0`, while the
number of items whose class tag is `lecture` is `1`: orphan lectures are
dropped before counting (lines 126-131). -/
theorem organize_count_counterexample :
    (organize_curriculum [⟨"lecture", 1, "L0", "", true, false⟩]).2 = 0
  ∧ List.countP isLectureItem [⟨"lecture", 1, "L0", "", true, false⟩] = 1 :=
  ⟨rfl, rfl⟩

/-- C2 amended: `organize_curriculum` preserves the relative order of
chapters (the output chapters' headers are exactly the chapter items'
headers in input order) and the relative order of each chapter's
children (the children of all chapters, flattened in curriculum order,
are exactly the attachable items from the first chapter item on, in
input order); the reported lecture count equals the number of
lecture-class items at or after the first chapter item — lecture-class
items preceding any chapter are dropped and not counted, and practice
items are never counted. -/
theorem organize_order_and_count (items : List RawItem) :
    ((organize_curriculum items).1).map chapterHeader
        = (items.filter isChapterItem).map itemHeader
  ∧ childrenFlat ((organize_curriculum items).1)
        = (items.dropWhile (fun i => !isChapterItem i)).filter isAttachable
  ∧ (organize_curriculum items).2
        = (items.dropWhile (fun i => !isChapterItem i)).countP isLectureItem := by
  refine ⟨?_, ?_, ?_⟩
  · have h := fold_map_header items ([], 0)
    simpa [organize_curriculum] using h
  · rw [organize_curriculum, fold_empty_eq_dropWhile]
    cases hdrop : items.dropWhile (fun i => !isChapterItem i) with
    | nil => simp [childrenFlat]
    | cons it2 rest2 =>
      have h2 : isChapterItem it2 = true := by
        have := dropWhile_head_false (fun i => !isChapterItem i) items it2 rest2 hdrop
        simpa using this
      rw [List.foldl_cons, organizeStep_chapter [] 0 it2 h2]
      simp only [List.nil_append]
      rw [fold_childrenFlat rest2 [mkChapter it2] 0 (by simp)]
      simp [childrenFlat, mkChapter, List.filter_cons, chapter_not_attachable it2 h2]
  · rw [organize_curriculum, fold_empty_eq_dropWhile]
    cases hdrop : items.dropWhile (fun i => !isChapterItem i) with
    | nil => simp
    | cons it2 rest2 =>
      have h2 : isChapterItem it2 = true := by
        have := dropWhile_head_false (fun i => !isChapterItem i) items it2 rest2 hdrop
        simpa using this
      rw [List.foldl_cons, organizeStep_chapter [] 0 it2 h2]
      simp only [List.nil_append]
      rw [fold_count rest2 [mkChapter it2] 0 (by simp)]
      simp [List.countP_cons, chapter_not_lecture it2 h2]

lemma appendToLast_cons_ne (c0 : Chapter) (l : List Chapter) (it : RawItem)
    (h : l ≠ []) : appendToLast (c0 :: l) it = c0 :: appendToLast l it := by
  cases l with
  | nil => exact absurd rfl h
  | cons a b => rfl

lemma appendToLast_append_singleton (cs : List Chapter) (c : Chapter) (it : RawItem) :
    appendToLast (cs ++ [c]) it
      = cs ++ [{ c with children := c.children ++ [it] }] := by
  induction cs with
  | nil => rfl
  | cons c0 cs2 ih =>
    rw [List.cons_append, appendToLast_cons_ne c0 (cs2 ++ [c]) it (by simp), ih,
      List.cons_append]

lemma fold_run (items : List RawItem) :
    ∀ (cs : List Chapter) (c : Chapter) (n : Nat),
    items.foldl organizeStep (cs ++ [c], n)
      = (items.dropWhile (fun i => !isChapterItem i)).foldl organizeStep
          (cs ++ [{ c with children := c.children
              ++ (items.takeWhile (fun i => !isChapterItem i)).filter isAttachable }],
           n + (items.takeWhile (fun i => !isChapterItem i)).countP isLectureItem) := by
  induction items with
  | nil => intro cs c n; simp
  | cons it rest ih =>
    intro cs c n
    cases hc : isChapterItem it with
    | true =>
      simp [List.takeWhile_cons, List.dropWhile_cons, hc]
    | false =>
      cases ha : isAttachable it with
      | true =>
        rw [List.foldl_cons, organizeStep_attach (cs ++ [c]) n it hc ha (by simp),
          appendToLast_append_singleton,
          ih cs { c with children := c.children ++ [it] }
            (if isLectureItem it then n + 1 else n)]
        simp only [List.takeWhile_cons, List.dropWhile_cons, hc, Bool.not_false,
          if_true, List.filter_cons, ha, List.countP_cons]
        have hch : (c.children ++ [it])
              ++ (rest.takeWhile fun i => !isChapterItem i).filter isAttachable
            = c.children
              ++ it :: (rest.takeWhile fun i => !isChapterItem i).filter isAttachable := by
          simp
        rw [hch]
        have hcnt : (if isLectureItem it then n + 1 else n)
              + (rest.takeWhile fun i => !isChapterItem i).countP isLectureItem
            = n + ((rest.takeWhile fun i => !isChapterItem i).countP isLectureItem
              + if isLectureItem it then 1 else 0) := by
          cases hl : isLectureItem it with
          | false => simp
          | true => simp; omega
        rw [hcnt]
      | false =>
        rw [List.foldl_cons, organizeStep_other (cs ++ [c]) n it hc ha, ih cs c n]
        simp only [List.takeWhile_cons, List.dropWhile_cons, hc, Bool.not_false,
          if_true, List.filter_cons, ha, List.countP_cons,
          not_lecture_of_not_attachable it ha]
        simp

lemma organizeRef_dropWhile (items : List RawItem) :
    organizeRef items = organizeRef (items.dropWhile (fun i => !isChapterItem i)) := by
  induction items with
  | nil => rfl
  | cons it rest ih =>
    cases hc : isChapterItem it with
    | true => simp [List.dropWhile_cons, hc]
    | false => simp [organizeRef, List.dropWhile_cons, hc, ih]

lemma fold_ref_aux (k : Nat) :
    ∀ (items : List RawItem), items.length ≤ k →
    ∀ (cs : List Chapter) (c : Chapter) (n : Nat),
    ((items.foldl organizeStep (cs ++ [c], n)).1)
      = cs ++ ({ c with children := c.children
            ++ (items.takeWhile (fun i => !isChapterItem i)).filter isAttachable }
          :: organizeRef (items.dropWhile (fun i => !isChapterItem i))) := by
  induction k with
  | zero =>
    intro items hlen cs c n
    have hnil : items = [] := List.length_eq_zero.mp (Nat.le_zero.mp hlen)
    subst hnil
    simp [organizeRef]
  | succ k ihk =>
    intro items hlen cs c n
    rw [fold_run]
    cases hdrop : items.dropWhile (fun i => !isChapterItem i) with
    | nil => simp [organizeRef]
    | cons it2 rest2 =>
      have h2 : isChapterItem it2 = true := by
        have := dropWhile_head_false (fun i => !isChapterItem i) items it2 rest2 hdrop
        simpa using this
      have hlen2 : rest2.length ≤ k := by
        have hsuf := List.IsSuffix.length_le (List.dropWhile_suffix
          (l := items) (fun i => !isChapterItem i))
        rw [hdrop] at hsuf
        simp at hsuf
        omega
      rw [List.foldl_cons, organizeStep_chapter _ _ it2 h2,
        ihk rest2 hlen2 _ (mkChapter it2) _]
      rw [show organizeRef (it2 :: rest2)
          = { mkChapter it2 with
              children := (rest2.takeWhile (fun i => !isChapterItem i)).filter isAttachable }
            :: organizeRef (rest2.dropWhile (fun i => !isChapterItem i)) by
        simp [organizeRef, h2]]
      simp [mkChapter]

/-- C3: `organize_curriculum` attaches each lecture/practice item only to
the most recently opened chapter: it computes exactly the reference
grouping `organizeRef`, in which every chapter's children are the
attachable items between that chapter item and the next chapter item,
and any lecture/practice item preceding the first chapter item is
dropped and appears nowhere in the output. -/
theorem organize_matches_most_recent_chapter (items : List RawItem) :
    (organize_curriculum items).1 = organizeRef items := by
  rw [organize_curriculum, fold_empty_eq_dropWhile, organizeRef_dropWhile items]
  cases hdrop : items.dropWhile (fun i => !isChapterItem i) with
  | nil => simp [organizeRef]
  | cons it2 rest2 =>
    have h2 : isChapterItem it2 = true := by
      have := dropWhile_head_false (fun i => !isChapterItem i) items it2 rest2 hdrop
      simpa using this
    rw [List.foldl_cons, organizeStep_chapter [] 0 it2 h2]
    simp only [List.nil_append]
    have h := fold_ref_aux rest2.length rest2 le_rfl [] (mkChapter it2) 0
    simp only [List.nil_append] at h
    rw [h]
    rw [show organizeRef (it2 :: rest2)
        = { mkChapter it2 with
            children := (rest2.takeWhile (fun i => !isChapterItem i)).filter isAttachable }
          :: organizeRef (rest2.dropWhile (fun i => !isChapterItem i)) by
      simp [organizeRef, h2]]
    simp [mkChapter]
